import Mathlib

set_option maxRecDepth 100000

/-!
Verification development for the DeTEE CPI extension (src/src/lib.rs).

The translation core of the extension is embedded shallowly: the Rust string
operations the source uses are modelled as structurally recursive functions
over character lists, serde_json values as an inductive Value with the sorted
map semantics of serde_json's BTreeMap, and each action as a pure function of
the raw text the external command collaborator returned.  A result of none
models a Rust abort (index out of bounds), which the table parser can hit.
-/

/-- ASCII whitespace, matching what Rust's trim and split_whitespace do on
the ASCII-only output the source deals with (space, tab, line feed, vertical
tab, form feed, carriage return). -/
def isRustWs (c : Char) : Bool := c.toNat = 32 || (9 ≤ c.toNat && c.toNat ≤ 13)

/-- Boolean list-prefix test used by the substring scanners below. -/
def isPrefixList : List Char → List Char → Bool
  | [], _ => true
  | _ :: _, [] => false
  | a :: as, b :: bs => a == b && isPrefixList as bs

/-- Occurrence of pat anywhere in the text, by left-to-right scan. -/
def containsList (pat : List Char) : List Char → Bool
  | [] => isPrefixList pat []
  | c :: rest => isPrefixList pat (c :: rest) || containsList pat rest

/-- Rust str::contains with a literal pattern. -/
def containsSub (s pat : String) : Bool := containsList pat.data s.data

def trimList (l : List Char) : List Char :=
  ((l.dropWhile isRustWs).reverse.dropWhile isRustWs).reverse

/-- Rust str::trim. -/
def rustTrim (s : String) : String := String.mk (trimList s.data)

/-- Split on a single character, keeping empty pieces, as Rust str::split
with a char pattern does. -/
def splitCharList (c : Char) : List Char → List (List Char)
  | [] => [[]]
  | x :: rest =>
    if x = c then [] :: splitCharList c rest
    else
      match splitCharList c rest with
      | [] => [[x]]
      | p :: ps => (x :: p) :: ps

/-- Rust str::split with a single-character pattern. -/
def rustSplitChar (c : Char) (s : String) : List String :=
  (splitCharList c s.data).map String.mk

/-- Remove one trailing carriage return, as Rust lines does on every line
that ended with a line feed. -/
def stripCR (l : List Char) : List Char :=
  match l.reverse with
  | c :: rest => if c = '\r' then rest.reverse else l
  | [] => l

/-- Turn the pieces of a split on line feeds into Rust lines: every piece
but the last had a line feed after it, so loses one trailing carriage
return; a final empty piece (text ended with a line feed, or was empty) is
dropped; a final nonempty piece is kept as it is. -/
def linesAssemble : List (List Char) → List (List Char)
  | [] => []
  | [l] => if l = [] then [] else [l]
  | l :: ls => stripCR l :: linesAssemble ls

/-- Rust str::lines. -/
def rustLines (s : String) : List String :=
  (linesAssemble (splitCharList '\n' s.data)).map String.mk

/-- Fuelled splitter on whitespace runs; the fuel is the list length, which
is enough because every step consumes at least one character. -/
def splitWsFuel : Nat → List Char → List (List Char)
  | 0, _ => []
  | _ + 1, [] => []
  | n + 1, c :: rest =>
    if isRustWs c then splitWsFuel n rest
    else (c :: rest.takeWhile (fun x => !isRustWs x)) ::
      splitWsFuel n (rest.dropWhile (fun x => !isRustWs x))

/-- Rust str::split_whitespace. -/
def rustSplitWs (s : String) : List String :=
  (splitWsFuel s.data.length s.data).map String.mk

def charUtf8Size (c : Char) : Nat :=
  if c.toNat < 128 then 1 else if c.toNat < 2048 then 2
  else if c.toNat < 65536 then 3 else 4

/-- Rust str::len: the UTF-8 byte length of the text. -/
def rustLen (s : String) : Nat := (s.data.map charUtf8Size).sum

/-- The suffix of the text following the first occurrence of pat, when pat
occurs: Rust str::find with a literal pattern followed by slicing from the
end of the found occurrence. -/
def suffixAfterList (pat : List Char) : List Char → Option (List Char)
  | [] => if isPrefixList pat [] then some [] else none
  | c :: rest =>
    if isPrefixList pat (c :: rest) then some (List.drop pat.length (c :: rest))
    else suffixAfterList pat rest

def suffixAfter (s pat : String) : Option String :=
  (suffixAfterList pat.data s.data).map String.mk

/-- Fuelled replacement of every occurrence of a nonempty pattern, left to
right and non-overlapping; the fuel is the list length, which is enough
because every step consumes at least one character. -/
def replaceFuel : Nat → List Char → List Char → List Char → List Char
  | 0, text, _, _ => text
  | _ + 1, [], _, _ => []
  | n + 1, c :: rest, pat, repl =>
    if isPrefixList pat (c :: rest) then
      repl ++ replaceFuel n (List.drop pat.length (c :: rest)) pat repl
    else c :: replaceFuel n rest pat repl

/-- Rust String::replace with a nonempty literal pattern. -/
def replaceSub (s pat repl : String) : String :=
  String.mk (replaceFuel s.data.length s.data pat.data repl.data)

def isAsciiDigit (c : Char) : Bool := 48 ≤ c.toNat && c.toNat ≤ 57

/-- Value of a run of ASCII digits, or none at the first non-digit. -/
def digitsVal : List Char → Nat → Option Nat
  | [], acc => some acc
  | c :: rest, acc =>
    if isAsciiDigit c then digitsVal rest (acc * 10 + (c.toNat - 48)) else none

/-- Rust i64::from_str: an optional sign, one or more ASCII digits, and the
64-bit range check. -/
def parseI64 (s : String) : Option Int :=
  match s.data with
  | [] => none
  | '+' :: rest =>
    match rest with
    | [] => none
    | _ => (digitsVal rest 0).bind fun n =>
        if n < 2 ^ 63 then some (Int.ofNat n) else none
  | '-' :: rest =>
    match rest with
    | [] => none
    | _ => (digitsVal rest 0).bind fun n =>
        if n ≤ 2 ^ 63 then some (-(Int.ofNat n)) else none
  | l => (digitsVal l 0).bind fun n =>
      if n < 2 ^ 63 then some (Int.ofNat n) else none

/-- Exact scaled decimal num / 10 ^ scale, modelling the f64 values the
source parses.  No claim depends on binary float rounding or arithmetic, so
a plain decimal literal is modelled by its exact value; Rust's exponent and
inf and nan spellings are not modelled (the source only defaults on a failed
parse, and no claim evaluates those spellings). -/
structure Dec64 where
  num : Int
  scale : Nat
deriving DecidableEq

/-- Unsigned decimal literal: digits with an optional fractional part, at
least one digit overall, as Rust f64::from_str accepts for plain decimals. -/
def parseUF (l : List Char) : Option Dec64 :=
  let ds := l.takeWhile isAsciiDigit
  let rest := l.dropWhile isAsciiDigit
  match rest with
  | [] => if ds.isEmpty then none else (digitsVal ds 0).map fun n => ⟨Int.ofNat n, 0⟩
  | '.' :: frac =>
    if frac.all isAsciiDigit then
      if ds.isEmpty && frac.isEmpty then none
      else (digitsVal (ds ++ frac) 0).map fun n => ⟨Int.ofNat n, frac.length⟩
    else none
  | _ => none

/-- Rust f64::from_str on the decimal subset (see Dec64). -/
def parseF64 (s : String) : Option Dec64 :=
  match s.data with
  | '+' :: rest => parseUF rest
  | '-' :: rest => (parseUF rest).map fun d => ⟨-d.num, d.scale⟩
  | l => parseUF l

/-- serde_json::Value, with numbers split into the i64 and f64 carriers the
source produces. -/
inductive Value where
  | null
  | bool (b : Bool)
  | int (n : Int)
  | float (f : Dec64)
  | str (s : String)
  | arr (elems : List Value)
  | obj (entries : List (String × Value))

def charListLt : List Char → List Char → Bool
  | [], [] => false
  | [], _ :: _ => true
  | _ :: _, [] => false
  | a :: as, b :: bs =>
    if a.toNat < b.toNat then true
    else if b.toNat < a.toNat then false
    else charListLt as bs

/-- Lexicographic order on ASCII keys: the BTreeMap order serde_json keeps
its object entries in. -/
def strLtB (a b : String) : Bool := charListLt a.data b.data

/-- Insertion into a key-sorted entry list (BTreeMap insert). -/
def insertPairs (k : String) (v : Value) : List (String × Value) → List (String × Value)
  | [] => [(k, v)]
  | (k0, v0) :: rest =>
    if strLtB k k0 then (k, v) :: (k0, v0) :: rest
    else if k = k0 then (k, v) :: rest
    else (k0, v0) :: insertPairs k v rest

def lookupPairs (k : String) : List (String × Value) → Option Value
  | [] => none
  | (k0, v0) :: rest => if k = k0 then some v0 else lookupPairs k rest

/-- serde_json map insertion through index assignment on an object. -/
def objInsert (o : Value) (k : String) (v : Value) : Value :=
  match o with
  | Value.obj es => Value.obj (insertPairs k v es)
  | other => other

/-- serde_json Value indexing with a string key: Null on a missing key or on
a non-object value. -/
def jIndex (o : Value) (k : String) : Value :=
  match o with
  | Value.obj es => (lookupPairs k es).getD Value.null
  | _ => Value.null

def hasKey (o : Value) (k : String) : Bool :=
  match o with
  | Value.obj es => (lookupPairs k es).isSome
  | _ => false

def isObj : Value → Bool
  | Value.obj _ => true
  | _ => false

/-- A JSON object literal, with its keys stored sorted as the serde_json
json macro's BTreeMap does. -/
def mkObj (ps : List (String × Value)) : Value :=
  ps.foldl (fun o p => objInsert o p.1 p.2) (Value.obj [])

/-- Index assignment guarded by an optional value: the source's pattern of
setting a field only when its extraction produced something. -/
def condInsert (o : Value) (k : String) (x : Option Value) : Value :=
  match x with
  | some v => objInsert o k v
  | none => o

/-- Mirror of the WorkerInfo struct (src/src/lib.rs lines 62 to 72); the f64
field lp_per_hour is carried as an exact scaled decimal. -/
structure WorkerInfo where
  city : String
  uuid : String
  hostname : String
  cores : Int
  memory_mb : Int
  disk_gb : Int
  lp_per_hour : Dec64
  time_left : String
deriving DecidableEq

/-- The pipe-delimited columns of one table line: split on the pipe, trim
each piece, drop empty pieces (src/src/lib.rs lines 162 to 165). -/
def rowColumns (line : String) : List String :=
  ((rustSplitChar '|' line).map rustTrim).filter (fun s => !(s == ""))

/-- The WorkerInfo the source builds from the columns of one row, with the
time_left value passed in separately because the source reads it from index
7 without a bounds guard (lines 173 to 182). -/
def mkWorker (cols : List String) (tl : String) : WorkerInfo :=
  { city := (cols.get? 0).getD ""
    uuid := (cols.get? 1).getD ""
    hostname := (cols.get? 2).getD ""
    cores := (parseI64 ((cols.get? 3).getD "")).getD 0
    memory_mb := (parseI64 ((cols.get? 4).getD "")).getD 0
    disk_gb := (parseI64 ((cols.get? 5).getD "")).getD 0
    lp_per_hour := (parseF64 ((cols.get? 6).getD "")).getD ⟨0, 0⟩
    time_left := tl }

/-- The loop of parse_workers_table over the data lines (lines 155 to 185):
skip dash separator lines, skip rows with fewer than 7 non-empty columns,
and read time_left from index 7.  A none result models the index out of
bounds abort that reading index 7 causes on a row with exactly 7 columns. -/
def goRows : List String → Option (List WorkerInfo)
  | [] => some []
  | line :: rest =>
    if containsSub line "----" then goRows rest
    else
      let columns := rowColumns line
      if columns.length < 7 then goRows rest
      else
        match columns.get? 7 with
        | none => none
        | some tl => (goRows rest).map (fun ws => mkWorker columns tl :: ws)

/-- parse_workers_table (src/src/lib.rs lines 146 to 188): keep the lines
containing a pipe, skip the first two of them, process the rest. -/
def parse_workers_table (output : String) : Option (List WorkerInfo) :=
  goRows (((rustLines output).filter (fun l => containsSub l "|")).drop 2)

/-- The row entity the table parser emits for a retained line, used to state
which rows survive: the columns of the line with time_left read from index 7
(empty when absent, which the source never reaches without aborting). -/
def rowToWorker (line : String) : WorkerInfo :=
  mkWorker (rowColumns line) (((rowColumns line).get? 7).getD "")

/-- The closed tag set of output shapes the classifier chooses from. -/
inductive OutputShape where
  | VersionInfo
  | ContainerId
  | AccountInfo
  | VmCreated
  | VmTable
  | VmUpdate
  | Generic
deriving DecidableEq

def predVersion (t : String) : Bool := containsSub t "detee-cli"

def predContainer (t : String) : Bool := rustLen t == 64 || rustLen t == 12

def predAccount (t : String) : Bool :=
  containsSub t "Config path:" && containsSub t "brain URL"

def predCreated (t : String) : Bool := containsSub t "VM CREATED"

def predTable (t : String) : Bool :=
  containsSub t "| City" && containsSub t "| UUID"

def predUpdate (t : String) : Bool :=
  containsSub t "hardware modifications" || containsSub t "will run for another"

/-- The classification implicit in the if chain of cli_output_to_json
(src/src/lib.rs lines 210 to 402), with the branch conditions in the
source's order. -/
def classify (t : String) : OutputShape :=
  if predVersion t then OutputShape.VersionInfo
  else if predContainer t then OutputShape.ContainerId
  else if predAccount t then OutputShape.AccountInfo
  else if predCreated t then OutputShape.VmCreated
  else if predTable t then OutputShape.VmTable
  else if predUpdate t then OutputShape.VmUpdate
  else OutputShape.Generic

/-- Each shape's classification predicate; Generic is the catch-all. -/
def shapePred : OutputShape → String → Bool
  | OutputShape.VersionInfo => predVersion
  | OutputShape.ContainerId => predContainer
  | OutputShape.AccountInfo => predAccount
  | OutputShape.VmCreated => predCreated
  | OutputShape.VmTable => predTable
  | OutputShape.VmUpdate => predUpdate
  | OutputShape.Generic => fun _ => true

/-- Position of each shape in the source's fixed evaluation order. -/
def shapeRank : OutputShape → Nat
  | OutputShape.VersionInfo => 0
  | OutputShape.ContainerId => 1
  | OutputShape.AccountInfo => 2
  | OutputShape.VmCreated => 3
  | OutputShape.VmTable => 4
  | OutputShape.VmUpdate => 5
  | OutputShape.Generic => 6

def shapeOrder : List OutputShape :=
  [OutputShape.VersionInfo, OutputShape.ContainerId, OutputShape.AccountInfo,
   OutputShape.VmCreated, OutputShape.VmTable, OutputShape.VmUpdate]

/-- First shape in a list whose predicate accepts the text, Generic when
none does. -/
def firstMatch (t : String) : List OutputShape → OutputShape
  | [] => OutputShape.Generic
  | s :: rest => if shapePred s t then s else firstMatch t rest

/-- The VersionInfo extractor (lines 215 to 225). -/
def versionValue (t : String) : Value :=
  mkObj [("version", Value.str (rustTrim (replaceSub (rustTrim t) "detee-cli " ""))),
         ("success", Value.bool true)]

/-- The ContainerId extractor (lines 228 to 233). -/
def containerIdValue (t : String) : Value :=
  mkObj [("container_id", Value.str (rustTrim t))]

/-- One AccountInfo field extraction (lines 240 to 291): find the first line
containing the marker, split the line on every colon, and when there are at
least two pieces take the second one, trimmed. -/
def accFieldOpt (t marker : String) : Option Value :=
  match (rustLines t).find? (fun l => containsSub l marker) with
  | some line =>
    let parts := rustSplitChar ':' line
    if 2 ≤ parts.length then some (Value.str (rustTrim ((parts.get? 1).getD "")))
    else none
  | none => none

/-- The marker line and emitted key of each of the six AccountInfo fields, in
the source's extraction order. -/
def accountMarkers : List (String × String) :=
  [("Config path:", "config_path"),
   ("brain URL is:", "brain_url"),
   ("SSH Key Path:", "ssh_key_path"),
   ("Wallet public key:", "wallet_public_key"),
   ("Account Balance:", "account_balance"),
   ("Wallet secret key path:", "wallet_secret_key_path")]

/-- The AccountInfo extractor (lines 236 to 294). -/
def accountValue (t : String) : Value :=
  condInsert (condInsert (condInsert (condInsert (condInsert (condInsert
    (Value.obj [])
    "config_path" (accFieldOpt t "Config path:"))
    "brain_url" (accFieldOpt t "brain URL is:"))
    "ssh_key_path" (accFieldOpt t "SSH Key Path:"))
    "wallet_public_key" (accFieldOpt t "Wallet public key:"))
    "account_balance" (accFieldOpt t "Account Balance:"))
    "wallet_secret_key_path" (accFieldOpt t "Wallet secret key path:")

/-- VmCreated hostname extraction (lines 301 to 306). -/
def hostnameOpt (t : String) : Option Value :=
  match (rustLines t).find? (fun l => containsSub l "Using random VM name:") with
  | some line =>
    let parts := rustSplitChar ':' line
    if 2 ≤ parts.length then some (Value.str (rustTrim ((parts.get? 1).getD "")))
    else none
  | none => none

/-- VmCreated price extraction (lines 309 to 315): second colon piece, split
again on the slash, first piece trimmed. -/
def priceOpt (t : String) : Option Value :=
  match (rustLines t).find? (fun l => containsSub l "Node price:") with
  | some line =>
    let parts := rustSplitChar ':' line
    if 2 ≤ parts.length then
      some (Value.str (rustTrim
        (((rustSplitChar '/' ((parts.get? 1).getD "")).get? 0).getD "")))
    else none
  | none => none

/-- VmCreated total units extraction (lines 318 to 325). -/
def totalUnitsOpt (t : String) : Option Value :=
  match (rustLines t).find? (fun l => containsSub l "Total Units for hardware requested:") with
  | some line =>
    let parts := rustSplitChar ':' line
    if 2 ≤ parts.length then (parseI64 (rustTrim ((parts.get? 1).getD ""))).map Value.int
    else none
  | none => none

/-- VmCreated locked LP extraction (lines 328 to 335). -/
def lockedLpOpt (t : String) : Option Value :=
  match (rustLines t).find? (fun l => containsSub l "Locking") with
  | some line =>
    let parts := rustSplitWs line
    if 2 ≤ parts.length then (parseF64 ((parts.get? 1).getD "")).map Value.float
    else none
  | none => none

/-- VmCreated ssh port extraction (lines 338 to 344). -/
def sshPortOpt (t : String) : Option Value :=
  match (rustLines t).find? (fun l => containsSub l "ssh -p") with
  | some line =>
    let parts := rustSplitWs line
    if 4 ≤ parts.length then (parseI64 ((parts.get? 2).getD "")).map Value.int
    else none
  | none => none

/-- VmCreated ssh host extraction (lines 346 to 349). -/
def sshHostOpt (t : String) : Option Value :=
  match (rustLines t).find? (fun l => containsSub l "ssh -p") with
  | some line =>
    let parts := rustSplitWs line
    if 4 ≤ parts.length then
      some (Value.str (((rustSplitChar '@' ((parts.get? 3).getD "")).get? 1).getD ""))
    else none
  | none => none

def isHexLower (c : Char) : Bool := isAsciiDigit c || (97 ≤ c.toNat && c.toNat ≤ 102)

/-- The canonical UUID shape of the source's regular expression: 36
characters in lowercase hexadecimal groups of 8, 4, 4, 4 and 12 separated by
dashes. -/
def uuidShapedList (l : List Char) : Bool :=
  l.length == 36 &&
  (List.range 36).all (fun i =>
    if i = 8 || i = 13 || i = 18 || i = 23 then (l.get? i) == some '-'
    else ((l.get? i).map isHexLower).getD false)

/-- Leftmost match of the source's UUID pattern: scan positions left to
right for a 36-character window of the canonical shape, which is what
regex captures return for this fixed-length pattern. -/
def findUuid : List Char → Option String
  | [] => none
  | c :: rest =>
    if uuidShapedList ((c :: rest).take 36) then some (String.mk ((c :: rest).take 36))
    else findUuid rest

/-- VmCreated uuid extraction (lines 352 to 363): on the first line
containing the creation marker, take the text after the marker with the
exclamation mark and find the first UUID-shaped substring in it. -/
def uuidOpt (t : String) : Option Value :=
  match (rustLines t).find? (fun l => containsSub l "VM CREATED") with
  | some line =>
    match suffixAfter line "VM CREATED!" with
    | some rest => (findUuid rest.data).map Value.str
    | none => none
  | none => none

/-- The VmCreated extractor (lines 297 to 365), with the conditional field
insertions in the source's order. -/
def vmCreatedValue (t : String) : Value :=
  condInsert (condInsert (condInsert (condInsert (condInsert (condInsert (condInsert
    (Value.obj [])
    "hostname" (hostnameOpt t))
    "price" (priceOpt t))
    "total_units" (totalUnitsOpt t))
    "locked_lp" (lockedLpOpt t))
    "ssh_port" (sshPortOpt t))
    "ssh_host" (sshHostOpt t))
    "uuid" (uuidOpt t)

/-- VmUpdate hours extraction (lines 386 to 393). -/
def hoursUpdatedOpt (t : String) : Option Value :=
  match (rustLines t).find? (fun l => containsSub l "The VM will run for another") with
  | some line =>
    let parts := rustSplitWs line
    if 7 ≤ parts.length then (parseI64 ((parts.get? 6).getD "")).map Value.int
    else none
  | none => none

/-- The VmUpdate extractor (lines 375 to 396). -/
def vmUpdateValue (t : String) : Value :=
  condInsert
    (condInsert (mkObj [("success", Value.bool true)])
      "hardware_modified"
      (if containsSub t "The node accepted the hardware modifications for the VM"
       then some (Value.bool true) else none))
    "hours_updated" (hoursUpdatedOpt t)

/-- serde_json serialization of a WorkerInfo (a sorted map of its eight
fields, as serializing the struct produces). -/
def workerToValue (w : WorkerInfo) : Value :=
  mkObj [("city", Value.str w.city), ("uuid", Value.str w.uuid),
         ("hostname", Value.str w.hostname), ("cores", Value.int w.cores),
         ("memory_mb", Value.int w.memory_mb), ("disk_gb", Value.int w.disk_gb),
         ("lp_per_hour", Value.float w.lp_per_hour), ("time_left", Value.str w.time_left)]

/-- cli_output_to_json (src/src/lib.rs lines 210 to 402), written as the
classifier followed by the per-shape extractor; the branch conditions and
their order are exactly the source's if chain.  The unused file path
parameter is omitted; none models the abort the table branch can hit. -/
def cli_output_to_json (t : String) : Option Value :=
  match classify t with
  | OutputShape.VersionInfo => some (versionValue t)
  | OutputShape.ContainerId => some (containerIdValue t)
  | OutputShape.AccountInfo => some (accountValue t)
  | OutputShape.VmCreated => some (vmCreatedValue t)
  | OutputShape.VmTable => (parse_workers_table t).map (fun ws => Value.arr (ws.map workerToValue))
  | OutputShape.VmUpdate => some (vmUpdateValue t)
  | OutputShape.Generic => some (mkObj [("success", Value.bool true)])

/-- The translated value, with Null standing in for the unreached abort
case, for stating field lookups. -/
def getJson (t : String) : Value := (cli_output_to_json t).getD Value.null

/-- setup_container (lines 414 to 425), as a function of the raw output text
of the successfully executed container start command. -/
def setup_container (output : String) : Option Value :=
  (cli_output_to_json output).map fun result =>
    mkObj [("success", Value.bool true), ("container_id", jIndex result "container_id")]

/-- list_workers (lines 458 to 466), as a function of the raw output text of
the successfully executed list command. -/
def list_workers (output : String) : Option Value :=
  (cli_output_to_json output).map fun workers => mkObj [("workers", workers)]

/-- get_worker (lines 468 to 497), as a function of the worker id and the
raw output text of the successfully executed grep-filtered list command; the
outer none models an abort inside the table parser. -/
def get_worker (worker_id : String) (output : String) : Option (Except String Value) :=
  if rustTrim output = "" then
    some (Except.error ("Worker with ID " ++ worker_id ++ " not found"))
  else
    match parse_workers_table output with
    | none => none
    | some workers =>
      match workers.head? with
      | some worker =>
        some (Except.ok (mkObj [("vm",
          mkObj [("city", Value.str worker.city), ("hostname", Value.str worker.hostname),
                 ("cores", Value.int worker.cores), ("memory_mb", Value.int worker.memory_mb),
                 ("disk_gb", Value.int worker.disk_gb),
                 ("lp_per_hour", Value.float worker.lp_per_hour),
                 ("time_left", Value.str worker.time_left)])]))
      | none => some (Except.error ("Failed to parse worker info for ID " ++ worker_id))

/-- has_worker (lines 499 to 521), as a function of the collaborator's
result for the grep-filtered list command: a failed execution is mapped to
the same success value with exists false, never an error. -/
def has_worker (result : Except String String) : Value :=
  match result with
  | Except.ok output =>
    mkObj [("success", Value.bool true), ("exists", Value.bool (!(rustTrim output == "")))]
  | Except.error _ =>
    mkObj [("success", Value.bool true), ("exists", Value.bool false)]

/-- One text line free of line breaks and carriage returns and nonempty:
the form of the lines a table text is assembled from. -/
def lineClean (l : String) : Bool :=
  !(l.data == []) && l.data.all (fun c => !(c == '\n') && !(c == '\r'))

/-- Join character-list lines with line feeds. -/
def joinList : List (List Char) → List Char
  | [] => []
  | [l] => l
  | l :: ls => l ++ '\n' :: joinList ls

/-- Join text lines with line feeds, the inverse of Rust lines on clean
nonempty lines. -/
def joinLines (ls : List String) : String := String.mk (joinList (ls.map String.data))

/-- A VmUpdate sample text (concrete input for classification witnesses). -/
def updateText : String := "The node accepted the hardware modifications for the VM"

/-- An AccountInfo sample text whose brain URL value contains colons. -/
def accountText : String :=
  "Config path: /root/.detee/cli\nYour DeTEE brain URL is: http://164.92.249.180:31337\nSSH Key Path: /root/.ssh/id_ed25519\nWallet public key: FWXB7sdNmFmkZW8CLFETLyn9U5F2HW75mMVJeySDnhrq\nAccount Balance: 141.96 LP\nWallet secret key path: /root/.detee/cli/wallet.json"

/-- A VmCreated sample text carrying a canonical UUID after the marker. -/
def createdText : String :=
  "Using random VM name: frosty-grass-4242\nNode price: 171 LP/unit/hour\nssh -p 32222 root@173.234.17.2\nVM CREATED! UUID: a1b2c3d4-e5f6-47a8-99b0-1234567890ab"

/-- A two-header table text with one well-formed 8-column row. -/
def tableText : String :=
  "| City | UUID | Hostname | Cores | Memory | Disk | LP/h | Time Left |\n|------------|\n| Lima | u-10 | host-a | 2 | 2048 | 20 | 1.5 | 3h |"

/-- The worker row tableText parses to. -/
def tableWorkers : List WorkerInfo :=
  [⟨"Lima", "u-10", "host-a", 2, 2048, 20, ⟨15, 1⟩, "3h"⟩]

/-- A 64-byte hexadecimal identifier. -/
def hex64 : String :=
  "0123456789abcdef0123456789abcdef0123456789abcdef0123456789abcdef"

/-- The same identifier followed by the trailing line feed command output
typically carries (65 bytes raw, 64 after trimming). -/
def hex64nl : String :=
  "0123456789abcdef0123456789abcdef0123456789abcdef0123456789abcdef\n"

/-- A table whose single data row has exactly 7 non-empty columns. -/
def sevenColTable : String :=
  "| City | UUID | Hostname | Cores | Mem | Disk | LP/h | Time |\n|--------|\n| Paris | u-7 | h7 | 2 | 2048 | 20 | 0.5 |"

/-- A table with an 8-column row, a 5-column row and a 7-column row. -/
def mixedTable : String :=
  "| City | UUID | Hostname | Cores | Mem | Disk | LP/h | Time |\n|--------|\n| Lima | u-1 | h1 | 2 | 2048 | 20 | 1.5 | 3h |\n| Oslo | u-2 | h2 | 4 | 4096 |\n| Rome | u-3 | h3 | 8 | 8192 | 80 | 2.5 |"

/-- A grep-filtered list output holding exactly one well-formed worker row,
the shape the get_worker command hands to the parser on a hit. -/
def singleRowOutput : String := "| Paris | abc12345 | host-1 | 4 | 4096 | 40 | 1.5 | 12h |\n"

/-- Header line of the concrete table used to witness row retention. -/
def c6hd1 : String := "| City | UUID | Hostname | Cores | Memory | Disk | LP/h | Time Left |"

/-- Separator line of the concrete table used to witness row retention. -/
def c6hd2 : String := "|--------------|"

/-- Data lines of the concrete table used to witness row retention: a good
8-column row, a 5-column row, a line without pipes, a dash separator, and a
second good 8-column row. -/
def c6rows : List String :=
  ["| Baku | u-21 | h21 | 2 | 2048 | 20 | 1.5 | 6h |",
   "| Kiev | u-22 | h22 | 4 | 4096 |",
   "no pipes here",
   "|----|",
   "| Oslo | u-23 | h23 | 8 | 8192 | 80 | 2.5 | 9h |"]

/-- Lookup after inserting the same key gives the inserted value. -/
theorem lookupPairs_insertPairs_self (k : String) (v : Value) (es : List (String × Value)) :
    lookupPairs k (insertPairs k v es) = some v := by
  induction es with
  | nil => simp [insertPairs, lookupPairs]
  | cons p rest ih =>
    obtain ⟨k0, v0⟩ := p
    cases h1 : strLtB k k0 with
    | true => simp [insertPairs, h1, lookupPairs]
    | false =>
      by_cases h2 : k = k0
      · subst h2
        simp [insertPairs, h1, lookupPairs]
      · simp [insertPairs, h1, h2, lookupPairs, ih]

/-- Lookup of a different key is unchanged by an insertion. -/
theorem lookupPairs_insertPairs_ne (k q : String) (v : Value) (es : List (String × Value))
    (h : q ≠ k) : lookupPairs q (insertPairs k v es) = lookupPairs q es := by
  induction es with
  | nil => simp [insertPairs, lookupPairs, h]
  | cons p rest ih =>
    obtain ⟨k0, v0⟩ := p
    cases h1 : strLtB k k0 with
    | true => simp [insertPairs, h1, lookupPairs, h]
    | false =>
      by_cases h2 : k = k0
      · subst h2
        simp [insertPairs, h1, lookupPairs, h]
      · simp [insertPairs, h1, h2, lookupPairs, ih]

theorem jIndex_objInsert_ne (o : Value) (k q : String) (v : Value) (h : q ≠ k) :
    jIndex (objInsert o k v) q = jIndex o q := by
  cases o with
  | obj es => simp [objInsert, jIndex, lookupPairs_insertPairs_ne k q v es h]
  | null => rfl
  | bool b => rfl
  | int n => rfl
  | float f => rfl
  | str s => rfl
  | arr elems => rfl

theorem jIndex_objInsert_self (o : Value) (k : String) (v : Value) (ho : isObj o = true) :
    jIndex (objInsert o k v) k = v := by
  cases o with
  | obj es => simp [objInsert, jIndex, lookupPairs_insertPairs_self]
  | null => simp [isObj] at ho
  | bool b => simp [isObj] at ho
  | int n => simp [isObj] at ho
  | float f => simp [isObj] at ho
  | str s => simp [isObj] at ho
  | arr elems => simp [isObj] at ho

theorem jIndex_condInsert_ne (o : Value) (k q : String) (x : Option Value) (h : q ≠ k) :
    jIndex (condInsert o k x) q = jIndex o q := by
  cases x with
  | some v => exact jIndex_objInsert_ne o k q v h
  | none => rfl

theorem jIndex_condInsert_some (o : Value) (k : String) (v : Value) (ho : isObj o = true) :
    jIndex (condInsert o k (some v)) k = v :=
  jIndex_objInsert_self o k v ho

theorem hasKey_objInsert_ne (o : Value) (k q : String) (v : Value) (h : q ≠ k) :
    hasKey (objInsert o k v) q = hasKey o q := by
  cases o with
  | obj es => simp [objInsert, hasKey, lookupPairs_insertPairs_ne k q v es h]
  | null => rfl
  | bool b => rfl
  | int n => rfl
  | float f => rfl
  | str s => rfl
  | arr elems => rfl

theorem hasKey_condInsert_ne (o : Value) (k q : String) (x : Option Value) (h : q ≠ k) :
    hasKey (condInsert o k x) q = hasKey o q := by
  cases x with
  | some v => exact hasKey_objInsert_ne o k q v h
  | none => rfl

theorem isObj_objInsert (o : Value) (k : String) (v : Value) :
    isObj (objInsert o k v) = isObj o := by
  cases o <;> rfl

theorem isObj_condInsert (o : Value) (k : String) (x : Option Value) :
    isObj (condInsert o k x) = isObj o := by
  cases x with
  | some v => exact isObj_objInsert o k v
  | none => rfl

theorem jIndex_emptyObj (q : String) : jIndex (Value.obj []) q = Value.null := rfl

theorem isObj_obj (es : List (String × Value)) : isObj (Value.obj es) = true := rfl

theorem hasKey_emptyObj (q : String) : hasKey (Value.obj []) q = false := rfl

/-- The classifier equals the first-match scan of the ordered predicate
list; this is definitional because classify is that chain. -/
theorem classify_first (t : String) : classify t = firstMatch t shapeOrder := rfl

/-- The predicate of the chosen shape holds (trivially for the Generic
catch-all). -/
theorem classify_pred_holds (t : String) : shapePred (classify t) t = true := by
  cases h1 : predVersion t <;> cases h2 : predContainer t <;>
    cases h3 : predAccount t <;> cases h4 : predCreated t <;>
    cases h5 : predTable t <;> cases h6 : predUpdate t <;>
    simp [classify, h1, h2, h3, h4, h5, h6, shapePred]

/-- Every predicate earlier in the fixed order than the chosen shape fails
on the text. -/
theorem classify_earlier_false (t : String) (s : OutputShape)
    (hs : shapeRank s < shapeRank (classify t)) : shapePred s t = false := by
  cases h1 : predVersion t <;> cases h2 : predContainer t <;>
    cases h3 : predAccount t <;> cases h4 : predCreated t <;>
    cases h5 : predTable t <;> cases h6 : predUpdate t <;>
    simp [classify, h1, h2, h3, h4, h5, h6, shapeRank] at hs <;>
    cases s <;> simp_all [shapePred, shapeRank]

/-- A character of a prefix occurs in the text it is a prefix of. -/
theorem mem_of_isPrefixList (c : Char) (pat : List Char) :
    ∀ text : List Char, isPrefixList pat text = true → c ∈ pat → c ∈ text := by
  induction pat with
  | nil => intro text h hc; exact absurd hc (List.not_mem_nil c)
  | cons a as ih =>
    intro text h hc
    cases text with
    | nil => simp [isPrefixList] at h
    | cons b bs =>
      simp [isPrefixList] at h
      rcases List.mem_cons.mp hc with rfl | hmem
      · rw [h.1]
        exact List.mem_cons_self b bs
      · exact List.mem_cons_of_mem b (ih bs h.2 hmem)

/-- A character of a contained pattern occurs in the containing text. -/
theorem mem_of_containsList (c : Char) (pat : List Char) :
    ∀ text : List Char, containsList pat text = true → c ∈ pat → c ∈ text := by
  intro text
  induction text with
  | nil =>
    intro h hc
    exact mem_of_isPrefixList c pat [] (by simpa [containsList] using h) hc
  | cons b bs ih =>
    intro h hc
    simp only [containsList, Bool.or_eq_true] at h
    rcases h with hpre | hcont
    · exact mem_of_isPrefixList c pat (b :: bs) hpre hc
    · exact List.mem_cons_of_mem b (ih hcont hc)

theorem splitCharList_ne_nil (c : Char) (xs : List Char) : splitCharList c xs ≠ [] := by
  cases xs with
  | nil => simp [splitCharList]
  | cons x rest =>
    by_cases hx : x = c
    · simp [splitCharList, hx]
    · cases hsp : splitCharList c rest with
      | nil => simp [splitCharList, hx, hsp]
      | cons p ps => simp [splitCharList, hx, hsp]

/-- Splitting on a character that occurs gives at least two pieces. -/
theorem two_le_splitCharList (c : Char) (xs : List Char) (h : c ∈ xs) :
    2 ≤ (splitCharList c xs).length := by
  induction xs with
  | nil => cases h
  | cons x rest ih =>
    by_cases hx : x = c
    · subst hx
      cases hsp : splitCharList x rest with
      | nil => exact absurd hsp (splitCharList_ne_nil x rest)
      | cons p ps => simp [splitCharList, hsp]
    · have hr : c ∈ rest := by
        rcases List.mem_cons.mp h with he | hm
        · exact absurd he.symm hx
        · exact hm
      cases hsp : splitCharList c rest with
      | nil => exact absurd hsp (splitCharList_ne_nil c rest)
      | cons p ps =>
        have := ih hr
        rw [hsp] at this
        simp [splitCharList, hx, hsp]
        simpa using this

/-- A line that contains a marker containing a colon splits on the colon
into at least two pieces. -/
theorem two_le_parts (line marker : String) (hsub : containsSub line marker = true)
    (hc : ':' ∈ marker.data) : 2 ≤ (rustSplitChar ':' line).length := by
  have hmem : ':' ∈ line.data := mem_of_containsList ':' marker.data line.data hsub hc
  have := two_le_splitCharList ':' line.data hmem
  simpa [rustSplitChar] using this

/-- When the marker line is found and the marker carries a colon, the
account field extraction yields the trimmed second colon piece. -/
theorem accFieldOpt_found (t marker line : String)
    (hline : (rustLines t).find? (fun l => containsSub l marker) = some line)
    (hc : ':' ∈ marker.data) :
    accFieldOpt t marker =
      some (Value.str (rustTrim (((rustSplitChar ':' line).get? 1).getD ""))) := by
  have hsub : containsSub line marker = true := by
    have := List.find?_some hline
    simpa using this
  have h2 := two_le_parts line marker hsub hc
  unfold accFieldOpt
  rw [hline]
  simp [h2]

/-- When no line contains the marker, the account field extraction yields
nothing. -/
theorem accFieldOpt_none (t marker : String)
    (hnone : (rustLines t).find? (fun l => containsSub l marker) = none) :
    accFieldOpt t marker = none := by
  unfold accFieldOpt
  rw [hnone]

/-- When the creation line, the marker and a UUID-shaped substring are all
present, the uuid extraction yields the first match. -/
theorem uuidOpt_found (t line rest u : String)
    (hline : (rustLines t).find? (fun l => containsSub l "VM CREATED") = some line)
    (hmark : suffixAfter line "VM CREATED!" = some rest)
    (hfind : findUuid rest.data = some u) :
    uuidOpt t = some (Value.str u) := by
  simp only [uuidOpt, hline, hmark, hfind]
  rfl

/-- When no UUID-shaped substring follows the marker, the uuid extraction
yields nothing. -/
theorem uuidOpt_none (t line rest : String)
    (hline : (rustLines t).find? (fun l => containsSub l "VM CREATED") = some line)
    (hmark : suffixAfter line "VM CREATED!" = some rest)
    (hfind : findUuid rest.data = none) :
    uuidOpt t = none := by
  simp only [uuidOpt, hline, hmark, hfind]
  rfl

/-- Splitting on a character that does not occur leaves the list whole. -/
theorem splitCharList_no_delim (c : Char) (xs : List Char) (h : c ∉ xs) :
    splitCharList c xs = [xs] := by
  induction xs with
  | nil => rfl
  | cons x rest ih =>
    rw [List.mem_cons] at h
    push_neg at h
    obtain ⟨hcx, hr⟩ := h
    have hx : ¬ x = c := fun he => hcx he.symm
    simp [splitCharList, hx, ih hr]

/-- Splitting at an explicit first delimiter peels the first piece. -/
theorem splitCharList_append (c : Char) (xs ys : List Char) (h : c ∉ xs) :
    splitCharList c (xs ++ c :: ys) = xs :: splitCharList c ys := by
  induction xs with
  | nil => simp [splitCharList]
  | cons x rest ih =>
    rw [List.mem_cons] at h
    push_neg at h
    obtain ⟨hcx, hr⟩ := h
    have hx : ¬ x = c := fun he => hcx he.symm
    simp [List.cons_append, splitCharList, hx, ih hr]

theorem stripCR_no_cr (l : List Char) (h : '\r' ∉ l) : stripCR l = l := by
  unfold stripCR
  cases hr : l.reverse with
  | nil => rfl
  | cons c rest =>
    have hc : c ∈ l := by
      have : c ∈ l.reverse := by
        rw [hr]
        exact List.mem_cons_self c rest
      simpa using this
    have hcne : ¬ c = '\r' := fun he => h (he ▸ hc)
    simp [hcne]

/-- Reassembling the split of a join of clean nonempty lines recovers the
lines. -/
theorem linesAssemble_join (ls : List (List Char))
    (h : ∀ l ∈ ls, l ≠ [] ∧ '\n' ∉ l ∧ '\r' ∉ l) :
    linesAssemble (splitCharList '\n' (joinList ls)) = ls := by
  induction ls with
  | nil => rfl
  | cons a rest ih =>
    obtain ⟨ha1, ha2, ha3⟩ := h a (List.mem_cons_self a rest)
    cases rest with
    | nil =>
      show linesAssemble (splitCharList '\n' (joinList [a])) = [a]
      rw [show joinList [a] = a from rfl, splitCharList_no_delim '\n' a ha2]
      simp [linesAssemble, ha1]
    | cons b rest2 =>
      have hjoin : joinList (a :: b :: rest2) = a ++ '\n' :: joinList (b :: rest2) := rfl
      rw [hjoin, splitCharList_append '\n' a _ ha2]
      have hne := splitCharList_ne_nil '\n' (joinList (b :: rest2))
      cases hsp : splitCharList '\n' (joinList (b :: rest2)) with
      | nil => exact absurd hsp hne
      | cons p ps =>
        have hrest := ih (fun l hl => h l (List.mem_cons_of_mem a hl))
        rw [hsp] at hrest
        simp [linesAssemble, stripCR_no_cr a ha3, hrest]

theorem string_mk_data (s : String) : String.mk s.data = s := rfl

/-- Rust lines is a left inverse of joining clean nonempty lines. -/
theorem rustLines_joinLines (ls : List String)
    (h : ∀ l ∈ ls, lineClean l = true) :
    rustLines (joinLines ls) = ls := by
  have hc : ∀ l ∈ ls.map String.data, l ≠ [] ∧ '\n' ∉ l ∧ '\r' ∉ l := by
    intro l hl
    obtain ⟨s, hs, rfl⟩ := List.mem_map.mp hl
    have hcl := h s hs
    simp only [lineClean, Bool.and_eq_true, List.all_eq_true, Bool.not_eq_true',
      beq_eq_false_iff_ne, ne_eq] at hcl
    obtain ⟨h1, h2⟩ := hcl
    refine ⟨h1, ?_, ?_⟩
    · intro hm
      have := h2 '\n' hm
      simp at this
    · intro hm
      have := h2 '\r' hm
      simp at this
  show (linesAssemble (splitCharList '\n' (joinList (ls.map String.data)))).map String.mk = ls
  rw [linesAssemble_join (ls.map String.data) hc, List.map_map]
  have hid : (String.mk ∘ String.data) = id := funext fun s => rfl
  rw [hid, List.map_id]

/-- The table parser's row loop on pipe-filtered data lines that contain no
row of exactly 7 columns retains exactly the non-dash rows with at least 8
non-empty columns, in order. -/
theorem goRows_filter (rows : List String)
    (hcols : ∀ l ∈ rows, containsSub l "|" = true → containsSub l "----" = false →
      (rowColumns l).length < 7 ∨ 8 ≤ (rowColumns l).length) :
    goRows (rows.filter (fun l => containsSub l "|")) =
      some ((rows.filter (fun l => containsSub l "|" && !(containsSub l "----") &&
        decide (8 ≤ (rowColumns l).length))).map rowToWorker) := by
  induction rows with
  | nil => rfl
  | cons l rest ih =>
    have ihr := ih (fun x hx hp hd => hcols x (List.mem_cons_of_mem l hx) hp hd)
    cases hp : containsSub l "|" with
    | false => simp [List.filter_cons, hp, ihr]
    | true =>
      cases hd : containsSub l "----" with
      | true => simp [List.filter_cons, hp, hd, goRows, ihr]
      | false =>
        by_cases hlen : (rowColumns l).length < 7
        · have h8 : ¬ (8 ≤ (rowColumns l).length) := by omega
          simp [List.filter_cons, hp, hd, goRows, hlen, h8, ihr]
        · have h8 : 8 ≤ (rowColumns l).length := by
            rcases hcols l (List.mem_cons_self l rest) hp hd with hlt | hge
            · exact absurd hlt hlen
            · exact hge
          have h7 : 7 < (rowColumns l).length := by omega
          have htl : (rowColumns l)[7]? = some ((rowColumns l)[7]) :=
            List.getElem?_eq_getElem h7
          simp [List.filter_cons, hp, hd, goRows, hlen, h8, htl, ihr, rowToWorker]

theorem condInsert_none (o : Value) (k : String) : condInsert o k none = o := rfl

/-- C5: classification is total and applies the shape predicates in the
fixed order VersionInfo, ContainerId, AccountInfo, VmCreated, VmTable,
VmUpdate, Generic, first match winning: the classifier equals the
first-match scan of the ordered predicate list with Generic the catch-all,
the chosen shape's predicate holds, and every shape earlier in the order
has a failing predicate, so a text satisfying an earlier predicate is
assigned that earlier shape even when a later predicate also holds. -/
theorem classification_fixed_order (t : String) :
    classify t = firstMatch t shapeOrder ∧
    shapePred (classify t) t = true ∧
    (∀ s : OutputShape, shapeRank s < shapeRank (classify t) → shapePred s t = false) :=
  ⟨classify_first t, classify_pred_holds t, fun s hs => classify_earlier_false t s hs⟩

/-- Witness for C5 at a concrete VmUpdate text: the earlier VmCreated
predicate indeed fails on it. -/
theorem classification_fixed_order_witness :
    shapePred OutputShape.VmCreated updateText = false :=
  (classification_fixed_order updateText).2.2 OutputShape.VmCreated (by decide)

/-- C9: a text of raw byte length exactly 64 or exactly 12 (the source
checks the untrimmed length of the output) that does not contain the CLI
name string is translated to the single-field mapping binding container_id
to the trimmed text. -/
theorem container_id_translation (t : String)
    (hlen : rustLen t = 64 ∨ rustLen t = 12)
    (hname : containsSub t "detee-cli" = false) :
    cli_output_to_json t = some (Value.obj [("container_id", Value.str (rustTrim t))]) := by
  have hcl : classify t = OutputShape.ContainerId := by
    have hc : predContainer t = true := by
      rcases hlen with h | h <;> simp [predContainer, h]
    simp [classify, predVersion, hname, hc]
  unfold cli_output_to_json
  rw [hcl]
  rfl

/-- Witness for C9: a concrete 64-character hexadecimal string yields a
container_id equal to that string. -/
theorem container_id_translation_witness :
    cli_output_to_json hex64 = some (Value.obj [("container_id", Value.str hex64)]) :=
  container_id_translation hex64 (Or.inl (by decide)) (by decide)

/-- C8: has_worker is total on the collaborator result: a failed execution
yields success true and exists false, never a propagated error, and a
successful execution yields exists true exactly when the returned text is
non-empty after trimming. -/
theorem has_worker_never_errors :
    (∀ e : String, has_worker (Except.error e) =
      Value.obj [("exists", Value.bool false), ("success", Value.bool true)]) ∧
    (∀ out : String, has_worker (Except.ok out) =
      Value.obj [("exists", Value.bool (!(rustTrim out == ""))), ("success", Value.bool true)]) :=
  ⟨fun _ => rfl, fun _ => rfl⟩

/-- C4: on a text classified as a table, list_workers returns a mapping
whose workers field holds one serialized WorkerRecord mapping per parsed
table row. -/
theorem list_workers_rows (t : String) (ws : List WorkerInfo)
    (hshape : classify t = OutputShape.VmTable)
    (hp : parse_workers_table t = some ws) :
    list_workers t = some (Value.obj [("workers", Value.arr (ws.map workerToValue))]) := by
  unfold list_workers cli_output_to_json
  rw [hshape, hp]
  rfl

/-- Witness for C4 at a concrete two-header table with one data row. -/
theorem list_workers_rows_witness :
    list_workers tableText =
      some (Value.obj [("workers", Value.arr (tableWorkers.map workerToValue))]) :=
  list_workers_rows tableText tableWorkers (by decide) (by decide)

/-- C10: the ContainerId length check runs on the raw untrimmed text even
though the emitted value is trimmed: a text whose trimmed form has byte
length 64 or 12 while the raw length is neither is not classified
ContainerId, and setup_container then returns success true with a null
container_id field. -/
theorem containerid_check_untrimmed (t : String) (v : Value)
    (htrim : rustLen (rustTrim t) = 64 ∨ rustLen (rustTrim t) = 12)
    (h64 : rustLen t ≠ 64) (h12 : rustLen t ≠ 12)
    (hv : cli_output_to_json t = some v) :
    classify t ≠ OutputShape.ContainerId ∧
    setup_container t =
      some (Value.obj [("container_id", Value.null), ("success", Value.bool true)]) := by
  have hpc : predContainer t = false := by
    simp [predContainer, h64, h12]
  have hne : classify t ≠ OutputShape.ContainerId := by
    intro hc
    have hph := classify_pred_holds t
    rw [hc] at hph
    simp only [shapePred] at hph
    rw [hph] at hpc
    cases hpc
  refine ⟨hne, ?_⟩
  have hnull : jIndex v "container_id" = Value.null := by
    cases hc : classify t with
    | VersionInfo =>
      simp [cli_output_to_json, hc] at hv
      subst hv
      simp [versionValue, mkObj, List.foldl, jIndex_objInsert_ne, jIndex_emptyObj]
    | ContainerId => exact absurd hc hne
    | AccountInfo =>
      simp [cli_output_to_json, hc] at hv
      subst hv
      simp [accountValue, jIndex_condInsert_ne, jIndex_emptyObj]
    | VmCreated =>
      simp [cli_output_to_json, hc] at hv
      subst hv
      simp [vmCreatedValue, jIndex_condInsert_ne, jIndex_emptyObj]
    | VmTable =>
      simp [cli_output_to_json, hc, Option.map_eq_some'] at hv
      rcases hv with ⟨ws, hws, hfa⟩
      subst hfa
      rfl
    | VmUpdate =>
      simp [cli_output_to_json, hc] at hv
      subst hv
      simp [vmUpdateValue, mkObj, List.foldl, jIndex_condInsert_ne, jIndex_objInsert_ne,
        jIndex_emptyObj]
    | Generic =>
      simp [cli_output_to_json, hc] at hv
      subst hv
      simp [mkObj, List.foldl, jIndex_objInsert_ne, jIndex_emptyObj]
  unfold setup_container
  rw [hv]
  simp only [Option.map_some']
  rw [hnull]
  rfl

/-- Witness for C10: the 64-character identifier followed by a trailing line
feed (65 raw bytes) falls through to the Generic shape, and setup_container
returns success with a null container_id. -/
theorem containerid_check_untrimmed_witness :
    classify hex64nl ≠ OutputShape.ContainerId ∧
    setup_container hex64nl =
      some (Value.obj [("container_id", Value.null), ("success", Value.bool true)]) :=
  containerid_check_untrimmed hex64nl (Value.obj [("success", Value.bool true)])
    (Or.inl (by decide)) (by decide) (by decide) (by rfl)

/-- C3 (amended): for an AccountInfo-classified text and each of the six
account fields, extraction never fails outright; when a line containing the
field's marker exists, the extracted field equals the trimmed segment of
the first such line strictly between its first and second colon (the source
splits the line on every colon and keeps piece 1, so later colons such as
those inside a URL are not included); when no such line exists the key is
absent from the record. -/
theorem account_field_extraction (t marker key : String)
    (hshape : classify t = OutputShape.AccountInfo)
    (hmk : (marker, key) ∈ accountMarkers) :
    (cli_output_to_json t).isSome = true ∧
    (∀ line, (rustLines t).find? (fun l => containsSub l marker) = some line →
      jIndex (getJson t) key =
        Value.str (rustTrim (((rustSplitChar ':' line).get? 1).getD ""))) ∧
    ((rustLines t).find? (fun l => containsSub l marker) = none →
      hasKey (getJson t) key = false) := by
  have hjson : getJson t = accountValue t := by
    simp [getJson, cli_output_to_json, hshape]
  simp only [accountMarkers, List.mem_cons, List.not_mem_nil, or_false,
    Prod.mk.injEq] at hmk
  rcases hmk with ⟨rfl, rfl⟩ | ⟨rfl, rfl⟩ | ⟨rfl, rfl⟩ | ⟨rfl, rfl⟩ | ⟨rfl, rfl⟩ | ⟨rfl, rfl⟩ <;>
    exact ⟨by simp [cli_output_to_json, hshape],
      fun line hline => by
        rw [hjson]
        unfold accountValue
        rw [accFieldOpt_found t _ line hline (by decide)]
        simp [jIndex_condInsert_ne, jIndex_condInsert_some, isObj_condInsert, isObj_obj],
      fun hnone => by
        rw [hjson]
        unfold accountValue
        rw [accFieldOpt_none t _ hnone]
        simp [condInsert_none, hasKey_condInsert_ne, hasKey_emptyObj]⟩

/-- Witness for C3 at the concrete account text: the wallet public key field
is extracted as the trimmed piece between the colons of its marker line. -/
theorem account_field_extraction_witness :
    jIndex (getJson accountText) "wallet_public_key" =
      Value.str "FWXB7sdNmFmkZW8CLFETLyn9U5F2HW75mMVJeySDnhrq" :=
  ((account_field_extraction accountText "Wallet public key:" "wallet_public_key"
      (by decide) (by decide)).2.1)
    "Wallet public key: FWXB7sdNmFmkZW8CLFETLyn9U5F2HW75mMVJeySDnhrq" (by decide)

/-- Counterexample to C3 as stated: the brain URL line's text after its
first colon is the full URL including later colons, but the extracted field
keeps only the piece up to the next colon. -/
theorem account_first_colon_counterexample :
    (rustLines accountText).find? (fun l => containsSub l "brain URL is:") =
      some "Your DeTEE brain URL is: http://164.92.249.180:31337" ∧
    jIndex (getJson accountText) "brain_url" = Value.str "http" ∧
    ("http" : String) ≠ "http://164.92.249.180:31337" :=
  ⟨by decide, by rfl, by decide⟩

/-- C7: for a VmCreated-classified text whose first creation-marker line is
given: when the text after the marker with the exclamation mark holds a
UUID-shaped substring, the uuid field equals the first (leftmost) such
substring exactly; when it holds none, the uuid key is absent from the
record, not an empty string. -/
theorem vm_created_uuid_extraction (t line : String)
    (hshape : classify t = OutputShape.VmCreated)
    (hline : (rustLines t).find? (fun l => containsSub l "VM CREATED") = some line) :
    (∀ rest u, suffixAfter line "VM CREATED!" = some rest → findUuid rest.data = some u →
      jIndex (getJson t) "uuid" = Value.str u) ∧
    (∀ rest, suffixAfter line "VM CREATED!" = some rest → findUuid rest.data = none →
      hasKey (getJson t) "uuid" = false) := by
  have hjson : getJson t = vmCreatedValue t := by
    simp [getJson, cli_output_to_json, hshape]
  constructor
  · intro rest u hmark hfind
    rw [hjson]
    unfold vmCreatedValue
    rw [uuidOpt_found t line rest u hline hmark hfind]
    exact jIndex_condInsert_some _ "uuid" _ (by simp [isObj_condInsert, isObj_obj])
  · intro rest hmark hfind
    rw [hjson]
    unfold vmCreatedValue
    rw [uuidOpt_none t line rest hline hmark hfind]
    simp [condInsert_none, hasKey_condInsert_ne, hasKey_emptyObj]

/-- Witness for C7 at a concrete creation text: the UUID literal after the
marker is extracted exactly. -/
theorem vm_created_uuid_extraction_witness :
    jIndex (getJson createdText) "uuid" =
      Value.str "a1b2c3d4-e5f6-47a8-99b0-1234567890ab" :=
  (vm_created_uuid_extraction createdText
      "VM CREATED! UUID: a1b2c3d4-e5f6-47a8-99b0-1234567890ab" (by decide) (by decide)).1
    " UUID: a1b2c3d4-e5f6-47a8-99b0-1234567890ab"
    "a1b2c3d4-e5f6-47a8-99b0-1234567890ab" (by decide) (by decide)

/-- C6 (amended): in a table text of two pipe-containing header lines
followed by clean nonempty data lines none of which has exactly 7 non-empty
columns, lines without a pipe character are ignored, rows containing a run
of dashes are skipped, short rows (fewer than 7 columns, such as a 5-column
row) are dropped, and exactly the rows with at least 8 non-empty columns
are retained, in their original order.  (The claim's threshold of 7 fails:
a row with exactly 7 columns makes the parser abort, see the
counterexample.) -/
theorem table_rows_retained (hd1 hd2 : String) (rows : List String)
    (hh1 : containsSub hd1 "|" = true) (hh2 : containsSub hd2 "|" = true)
    (hclean : ∀ l ∈ hd1 :: hd2 :: rows, lineClean l = true)
    (hcols : ∀ l ∈ rows, containsSub l "|" = true → containsSub l "----" = false →
      (rowColumns l).length < 7 ∨ 8 ≤ (rowColumns l).length) :
    parse_workers_table (joinLines (hd1 :: hd2 :: rows)) =
      some ((rows.filter (fun l => containsSub l "|" && !(containsSub l "----") &&
        decide (8 ≤ (rowColumns l).length))).map rowToWorker) := by
  unfold parse_workers_table
  rw [rustLines_joinLines _ hclean]
  have hfil : (hd1 :: hd2 :: rows).filter (fun l => containsSub l "|") =
      hd1 :: hd2 :: rows.filter (fun l => containsSub l "|") := by
    simp [List.filter_cons, hh1, hh2]
  rw [hfil]
  show goRows (rows.filter (fun l => containsSub l "|")) = _
  exact goRows_filter rows hcols

/-- Counterexample to C6 as stated: the final data row of mixedTable has
exactly 7 non-empty columns, which the claim counts as well formed and
retained, but the parser aborts on it (index out of bounds reading the 8th
column) and returns no rows at all, dropping the well-formed 8-column row
with it. -/
theorem seven_column_retention_counterexample : parse_workers_table mixedTable = none := by
  decide

/-- Witness for C6 at a concrete table: the two 8-column rows are retained
in order, while the 5-column row, the pipe-free line and the dash separator
are dropped. -/
theorem table_rows_retained_witness :
    parse_workers_table (joinLines (c6hd1 :: c6hd2 :: c6rows)) =
      some [⟨"Baku", "u-21", "h21", 2, 2048, 20, ⟨15, 1⟩, "6h"⟩,
            ⟨"Oslo", "u-23", "h23", 8, 8192, 80, ⟨25, 1⟩, "9h"⟩] :=
  table_rows_retained c6hd1 c6hd2 c6rows (by decide) (by decide) (by decide) (by decide)

/-- C2: the table parser is not the total function the claim states: a data
row with exactly 7 non-empty columns passes the minimum-column check, but
the read of time_left from index 7 (the 8th column) is out of bounds there,
modelled as the none result, so the parse aborts instead of returning
records. -/
theorem seven_column_row_aborts : parse_workers_table sevenColTable = none := by decide

/-- C1: get_worker on a successful execution whose returned text is exactly
one well-formed 8-column worker row (the shape a grep-filtered single hit
has) does not produce the vm mapping the claim describes: the table parser
skips the first two pipe-containing lines as headers, so the single row is
consumed as a header and the action returns its parse-failure error
instead. -/
theorem get_worker_single_row_lost :
    get_worker "abc12345" singleRowOutput =
      some (Except.error "Failed to parse worker info for ID abc12345") := by rfl
